import Mathlib

set_option linter.unusedVariables false

/-!
Shallow embedding of the rustotpony secrets manager.

Source files embedded here:
  * src/generators.rs — the TOTP entry record and its constructors,
  * src/lib.rs        — the in-memory registry (create / rename / get / flush),
  * src/databases/json.rs — the encrypted JSON store: SHA-256 key derivation,
    AES-256-CBC with PKCS padding (CBC chaining and padding modelled
    concretely; the AES block permutation itself and the serde/UTF-8 codecs
    are parameters, as the spec treats them as vetted external primitives),
    IV-prefixed blobs, and the versioned schema.

Bytes are modelled as `Nat` (values < 256 in all real runs); byte strings as
`List Nat`; `HashMap<String, TOTP>` as an association list; Rust panics
(`expect` / `unwrap` / slice-index) as the `Outcome.panic` constructor.
-/

/-- Rust panics versus normal returns: `Outcome.panic` models a Rust panic
(`expect`, `unwrap`, out-of-range slice index). -/
inductive Outcome (α : Type) where
  | ok (a : α)
  | panic (msg : String)
deriving DecidableEq

/-- From src/generators.rs: the generator application struct (field order as in
the source: name, secret, username, secret_bytes). -/
structure TOTP where
  name : String
  secret : String
  username : String
  secret_bytes : List Nat
deriving DecidableEq

/-- From the base32 crate (RFC4648 inverse alphabet, indexed by the byte of an
uppercased ASCII character): 'A'-'Z' map to 0-25, '2'-'7' to 26-31, '=' to 0,
everything else is invalid. -/
def rfc4648Inv (c : Nat) : Option Nat :=
  if 50 ≤ c ∧ c ≤ 55 then some (c - 50 + 26)
  else if c = 61 then some 0
  else if 65 ≤ c ∧ c ≤ 90 then some (c - 65)
  else none

/-- Fuel-indexed worker for `chunkList` (structural recursion so that the
kernel can evaluate it). -/
def chunkGo (n : Nat) : Nat → List Nat → List (List Nat)
  | 0, _ => []
  | _, [] => []
  | fuel + 1, x :: xs => ((x :: xs).take n) :: chunkGo n fuel (xs.drop (n - 1))

/-- Split a list into consecutive chunks of length `n` (the last chunk may be
shorter), as Rust's `slice::chunks`. -/
def chunkList (n : Nat) (l : List Nat) : List (List Nat) :=
  chunkGo n l.length l

/-- From the base32 crate: turn one 8-character chunk of 5-bit values into its
5 output bytes (u8 shifts wrap modulo 256, missing values are zero). -/
def b32chunkBytes (vs : List Nat) : List Nat :=
  let v := fun i => vs.getD i 0
  [ ((v 0 <<< 3) % 256) ||| (v 1 >>> 2),
    ((v 1 <<< 6) % 256) ||| ((v 2 <<< 1) % 256) ||| (v 3 >>> 4),
    ((v 3 <<< 4) % 256) ||| (v 4 >>> 1),
    ((v 4 <<< 7) % 256) ||| ((v 5 <<< 2) % 256) ||| (v 6 >>> 3),
    ((v 6 <<< 5) % 256) ||| (v 7) ]

/-- From the base32 crate, `decode(Alphabet::RFC4648, data)`: reject non-ASCII
input, uppercase, strip up to 6 trailing '=' characters from the byte count,
decode 8-character chunks through the inverse alphabet (any invalid character
fails the whole decode) and truncate to `unpadded * 5 / 8` bytes. -/
def base32decode (s : String) : Option (List Nat) :=
  if s.data.all (fun c => c.toNat ≤ 127) then
    let data := s.data.map (fun c => c.toUpper.toNat)
    let pad := min (data.reverse.takeWhile (fun b => b == 61)).length 6
    let outputLength := (data.length - pad) * 5 / 8
    match (chunkList 8 data).mapM (fun chunk => chunk.mapM rfc4648Inv) with
    | some vals => some (((vals.map b32chunkBytes).flatten).take outputLength)
    | none => none
  else none

/-- From src/generators.rs, `TOTP::new` (argument order as in the source). -/
def TOTP.new (name username secret : String) (secret_bytes : List Nat) : TOTP :=
  { name := name, secret := secret, username := username, secret_bytes := secret_bytes }

/-- From src/generators.rs, `TOTP::base32_to_bytes`. -/
def TOTP.base32_to_bytes (secret : String) : Option (List Nat) :=
  base32decode secret

/-- From src/generators.rs, `TOTP::new_base32`. -/
def TOTP.new_base32 (name username base32_secret : String) : Except String TOTP :=
  match TOTP.base32_to_bytes base32_secret with
  | some secret_bytes => Except.ok (TOTP.new name username base32_secret secret_bytes)
  | none => Except.error ("Couldn't decode secret key")

/-- From src/generators.rs, `TOTP::set_name`. -/
def TOTP.set_name (t : TOTP) (name : String) : TOTP :=
  { t with name := name }

/-- The in-memory `HashMap<String, TOTP>` of src/lib.rs, as an association
list. -/
abbrev AppMap := List (String × TOTP)

/-- `HashMap::contains_key`. -/
def AppMap.containsKey : AppMap → String → Bool
  | [], _ => false
  | p :: m, k => (p.1 == k) || AppMap.containsKey m k

/-- `HashMap::get`. -/
def AppMap.get? : AppMap → String → Option TOTP
  | [], _ => none
  | p :: m, k => if p.1 == k then some p.2 else AppMap.get? m k

/-- `HashMap::insert` of a key known to be absent (the only way src/lib.rs
inserts): append the new binding. -/
def AppMap.insertNew (m : AppMap) (k : String) (v : TOTP) : AppMap :=
  m ++ [(k, v)]

/-- `HashMap::get_mut` followed by an in-place update: rewrite the value
stored under key `k`, leaving every key untouched. -/
def AppMap.mapAt (m : AppMap) (k : String) (f : TOTP → TOTP) : AppMap :=
  m.map (fun p => if p.1 == k then (p.1, f p.2) else p)

/-- From src/lib.rs, `RusTOTPony::create_application`: decode the secret
first (the `?` on `TOTP::new_base32`), then check for a duplicate name, then
insert. Returns the result together with the registry map after the call. -/
def create_application (name username secret : String) (apps : AppMap) :
    Except String Unit × AppMap :=
  match TOTP.new_base32 name username secret with
  | Except.error e => (Except.error e, apps)
  | Except.ok new_app =>
    if apps.containsKey name then
      (Except.error ("Application with name '" ++ name ++ "' already exists!"), apps)
    else
      (Except.ok (), apps.insertNew name new_app)

/-- From src/lib.rs, `RusTOTPony::rename_application`: mutate the entry's
name field in place; the map key is not changed. -/
def rename_application (name newname : String) (apps : AppMap) :
    Except String Unit × AppMap :=
  if apps.containsKey name then
    (Except.ok (), apps.mapAt name (fun app => app.set_name newname))
  else
    (Except.error ("Application '" ++ name ++ "' wasn't found"), apps)

/-- From src/lib.rs, `RusTOTPony::get_application`. -/
def get_application (name : String) (apps : AppMap) : Except String TOTP :=
  match apps.get? name with
  | some app => Except.ok app
  | none => Except.error ("Application '" ++ name ++ "' wasn't found")

/-- From src/databases/json.rs, `IV_SIZE`. -/
def IV_SIZE : Nat := 16

/-- From src/databases/json.rs, `KEY_SIZE`. -/
def KEY_SIZE : Nat := 32

/-- From src/databases/json.rs, `DATABASE_VERSION`. -/
def DATABASE_VERSION : Nat := 1

/-- The error type of the rust-crypto `symmetriccipher` module. -/
inductive SymmetricCipherError where
  | InvalidLength
  | InvalidPadding
deriving DecidableEq

/-- Byte-wise XOR, the CBC chaining operation. -/
def xorBytes (a b : List Nat) : List Nat :=
  List.zipWith (fun x y => x ^^^ y) a b

/-- PKCS padding length for a plaintext of `n` bytes: always between 1 and 16,
a full extra block when `n` is a multiple of 16. -/
def padLen (n : Nat) : Nat := 16 - n % 16

/-- rust-crypto `PkcsPadding.pad_input`: append `padLen` copies of the byte
`padLen`. -/
def pkcsPad (data : List Nat) : List Nat :=
  data ++ List.replicate (padLen data.length) (padLen data.length)

/-- rust-crypto `PkcsPadding.strip_output`: read the last byte `p`; a zero `p`
validates and strips nothing; `1 ≤ p ≤ 16` requires the last `p` bytes to all
equal `p` and strips them; anything else is a padding failure. -/
def pkcsUnpad (l : List Nat) : Option (List Nat) :=
  match l.getLast? with
  | none => none
  | some p =>
    if p = 0 then some l
    else if p ≤ 16 ∧ p ≤ l.length ∧ (l.drop (l.length - p)).all (fun x => x == p) then
      some (l.take (l.length - p))
    else none

/-- CBC encryption over a list of 16-byte blocks: each plaintext block is
XORed with the previous ciphertext block (initially the IV) and pushed through
the block cipher `E` (a parameter standing for the vetted AES-256 block
permutation keyed by `key`). -/
def cbcEncBlocks (E : List Nat → List Nat → List Nat) (key : List Nat) :
    List Nat → List (List Nat) → List (List Nat)
  | _, [] => []
  | iv, b :: bs =>
    let c := E key (xorBytes iv b)
    c :: cbcEncBlocks E key c bs

/-- CBC decryption over a list of 16-byte ciphertext blocks with inverse block
cipher `D`. -/
def cbcDecBlocks (D : List Nat → List Nat → List Nat) (key : List Nat) :
    List Nat → List (List Nat) → List (List Nat)
  | _, [] => []
  | iv, c :: cs => xorBytes iv (D key c) :: cbcDecBlocks D key c cs

/-- From src/databases/json.rs, `JsonDatabase::encrypt` (AES-256/CBC/Pkcs):
pad the data, encrypt it block by block chained from the IV. Encryption of
well-formed key material never fails, so the `Result` is always `Ok`. -/
def encrypt (E : List Nat → List Nat → List Nat) (data key iv : List Nat) :
    Except SymmetricCipherError (List Nat) :=
  Except.ok ((cbcEncBlocks E key iv (chunkList 16 (pkcsPad data))).flatten)

/-- From src/databases/json.rs, `JsonDatabase::decrypt` (AES-256/CBC/Pkcs):
fails with a `SymmetricCipherError` when the ciphertext length is not a
multiple of the block size or when the padding of the decrypted final block
does not validate. On empty input the underlying `BlockEngine` reaches its
finished state without ever invoking `strip_output`, so the result is `Ok`
with empty output and no padding check. -/
def decrypt (D : List Nat → List Nat → List Nat) (encrypted_data key iv : List Nat) :
    Except SymmetricCipherError (List Nat) :=
  if encrypted_data.length % 16 = 0 then
    if encrypted_data = [] then Except.ok []
    else
      match pkcsUnpad ((cbcDecBlocks D key iv (chunkList 16 encrypted_data)).flatten) with
      | some p => Except.ok p
      | none => Except.error SymmetricCipherError.InvalidPadding
  else Except.error SymmetricCipherError.InvalidLength

/-- From src/databases/json.rs, `JsonDatabase::form_secret_key`: the 32-byte
SHA-256 digest of the passphrase (`sha256` is a parameter standing for the
vetted external hash). -/
def form_secret_key (sha256 : String → List Nat) (input : String) : List Nat :=
  sha256 input

/-- From src/databases/json.rs, `JsonDatabase::encrypt_data`: a fresh random
IV (passed in as the parameter `iv`, modelling the `OsRng` draw of
`create_iv`) followed by the ciphertext of the UTF-8 bytes of `data`. -/
def encrypt_data (E : List Nat → List Nat → List Nat) (utf8enc : String → List Nat)
    (data : String) (key iv : List Nat) : List Nat :=
  iv ++ (cbcEncBlocks E key iv (chunkList 16 (pkcsPad (utf8enc data)))).flatten

/-- From src/databases/json.rs, `JsonDatabase::decrypt_data`: split the first
16 bytes as the IV (the slice `&data[..IV_SIZE]` panics when the blob is
shorter), decrypt the rest (`expect` panics on a `SymmetricCipherError`), and
re-read the plaintext as UTF-8 (`.ok().unwrap()` panics when it is not). -/
def decrypt_data (D : List Nat → List Nat → List Nat)
    (utf8dec : List Nat → Option String) (data key : List Nat) : Outcome String :=
  if data.length < IV_SIZE then Outcome.panic ("slice index out of range")
  else
    match decrypt D (data.drop IV_SIZE) key (data.take IV_SIZE) with
    | Except.error _ => Outcome.panic ("Couldn't decrypt data")
    | Except.ok plain =>
      match utf8dec plain with
      | some s => Outcome.ok s
      | none => Outcome.panic ("called Option.unwrap on a None value")

/-- From src/databases/json.rs, `DatabaseContentSchema`. -/
structure DatabaseContentSchema where
  applications : AppMap
deriving DecidableEq

/-- From src/databases/json.rs, `JsonDatabaseSchema`. -/
structure JsonDatabaseSchema where
  version : Nat
  content : DatabaseContentSchema
deriving DecidableEq

/-- From src/databases/json.rs, `JsonDatabase::get_empty_schema`. -/
def get_empty_schema : JsonDatabaseSchema :=
  { version := DATABASE_VERSION, content := { applications := [] } }

/-- From src/databases/json.rs, `JsonDatabase::read_database_file`: a missing
backing file (`fileData = none`, Rust's `ErrorKind::NotFound`) yields the
empty schema; otherwise the blob is decrypted under the key derived from the
passphrase provider's answer and parsed (`fromJson` stands for
`serde_json::from_str`; a parse failure is an `expect` panic). -/
def read_database_file (D : List Nat → List Nat → List Nat)
    (utf8dec : List Nat → Option String)
    (fromJson : String → Option JsonDatabaseSchema)
    (sha256 : String → List Nat) (pass : String)
    (fileData : Option (List Nat)) : Outcome JsonDatabaseSchema :=
  match fileData with
  | none => Outcome.ok get_empty_schema
  | some data =>
    match decrypt_data D utf8dec data (form_secret_key sha256 pass) with
    | Outcome.panic m => Outcome.panic m
    | Outcome.ok s =>
      match fromJson s with
      | some schema => Outcome.ok schema
      | none => Outcome.panic ("Couldn't parse JSON from database file")

/-- From src/databases/json.rs, `Database::get_applications` for
`JsonDatabase`: the applications of the document read from the file. -/
def get_applications (D : List Nat → List Nat → List Nat)
    (utf8dec : List Nat → Option String)
    (fromJson : String → Option JsonDatabaseSchema)
    (sha256 : String → List Nat) (pass : String)
    (fileData : Option (List Nat)) : Outcome AppMap :=
  match read_database_file D utf8dec fromJson sha256 pass fileData with
  | Outcome.ok db_content => Outcome.ok db_content.content.applications
  | Outcome.panic m => Outcome.panic m

/-- From src/databases/json.rs, `Database::save_applications`: the document
actually written is the empty schema with its applications replaced by a clone
of the given map. -/
def save_applications_schema (applications : AppMap) : JsonDatabaseSchema :=
  { get_empty_schema with content := { applications := applications } }

/-- From src/databases/json.rs, `JsonDatabase::save_database_file`: serialize
the document (`toJson` stands for `serde_json::to_string`) and write its
encryption under the key derived from the passphrase provider's answer.
Returns the bytes written to the file. -/
def save_database_file (E : List Nat → List Nat → List Nat)
    (utf8enc : String → List Nat) (toJson : JsonDatabaseSchema → String)
    (sha256 : String → List Nat) (pass : String) (iv : List Nat)
    (content : JsonDatabaseSchema) : List Nat :=
  encrypt_data E utf8enc (toJson content) (form_secret_key sha256 pass) iv

/-- From src/databases/json.rs, `Database::save_applications` for
`JsonDatabase`. -/
def save_applications (E : List Nat → List Nat → List Nat)
    (utf8enc : String → List Nat) (toJson : JsonDatabaseSchema → String)
    (sha256 : String → List Nat) (pass : String) (iv : List Nat)
    (applications : AppMap) : List Nat :=
  save_database_file E utf8enc toJson sha256 pass iv (save_applications_schema applications)

/-- From src/lib.rs, `RusTOTPony::flush`: call `save_applications` on the
current map through a shared borrow; the registry state is returned unchanged
together with the bytes written. -/
def flush (E : List Nat → List Nat → List Nat)
    (utf8enc : String → List Nat) (toJson : JsonDatabaseSchema → String)
    (sha256 : String → List Nat) (pass : String) (iv : List Nat)
    (apps : AppMap) : AppMap × List Nat :=
  (apps, save_applications E utf8enc toJson sha256 pass iv apps)

/-- A concrete invertible, length-preserving block transformation used to
instantiate the abstract block-cipher parameter in witnesses: XOR every byte
with 7. -/
def xor7cipher (key b : List Nat) : List Nat :=
  b.map (fun x => x ^^^ 7)

/-- A concrete stand-in for the external SHA-256, used only in witnesses. -/
def hash32 (input : String) : List Nat :=
  List.replicate 32 (input.length % 256)

/-- Witness codec: a natural number as a unary run of '0' closed by 'n'. -/
def natEnc (n : Nat) : List Char :=
  List.replicate n '0' ++ ['n']

/-- Witness codec: read back a `natEnc` prefix. -/
def natDec (cs : List Char) : Option (Nat × List Char) :=
  let n := (cs.takeWhile (fun c => c == '0')).length
  match cs.drop n with
  | 'n' :: rest => some (n, rest)
  | _ => none

/-- Witness codec: a string as its length followed by its raw characters. -/
def strEnc (s : String) : List Char :=
  natEnc s.length ++ s.data

/-- Witness codec: read back a `strEnc` prefix. -/
def strDec (cs : List Char) : Option (String × List Char) :=
  match natDec cs with
  | some (n, rest) =>
    if n ≤ rest.length then some (String.mk (rest.take n), rest.drop n) else none
  | none => none

/-- Witness codec: a byte list as its length followed by its elements. -/
def bytesEnc (l : List Nat) : List Char :=
  natEnc l.length ++ (l.map natEnc).flatten

/-- Witness codec: read back `k` encoded numbers. -/
def bytesDecGo : Nat → List Char → Option (List Nat × List Char)
  | 0, cs => some ([], cs)
  | k + 1, cs =>
    match natDec cs with
    | some (a, rest) =>
      match bytesDecGo k rest with
      | some (l, rest') => some (a :: l, rest')
      | none => none
    | none => none

/-- Witness codec: read back a `bytesEnc` prefix. -/
def bytesDec (cs : List Char) : Option (List Nat × List Char) :=
  match natDec cs with
  | some (k, rest) => bytesDecGo k rest
  | none => none

/-- Witness codec: one TOTP entry, field by field. -/
def totpEnc (t : TOTP) : List Char :=
  strEnc t.name ++ strEnc t.secret ++ strEnc t.username ++ bytesEnc t.secret_bytes

/-- Witness codec: read back a `totpEnc` prefix. -/
def totpDec (cs : List Char) : Option (TOTP × List Char) :=
  match strDec cs with
  | some (nm, cs₁) =>
    match strDec cs₁ with
    | some (sec, cs₂) =>
      match strDec cs₂ with
      | some (usr, cs₃) =>
        match bytesDec cs₃ with
        | some (bs, cs₄) =>
          some ({ name := nm, secret := sec, username := usr, secret_bytes := bs }, cs₄)
        | none => none
      | none => none
    | none => none
  | none => none

/-- Witness codec: read back `k` encoded map bindings. -/
def appsDecGo : Nat → List Char → Option (AppMap × List Char)
  | 0, cs => some ([], cs)
  | k + 1, cs =>
    match strDec cs with
    | some (key, cs₁) =>
      match totpDec cs₁ with
      | some (t, cs₂) =>
        match appsDecGo k cs₂ with
        | some (m, cs₃) => some ((key, t) :: m, cs₃)
        | none => none
      | none => none
    | none => none

/-- Witness codec: an application map as its size followed by its bindings. -/
def appsEnc (m : AppMap) : List Char :=
  natEnc m.length ++ (m.map (fun p => strEnc p.1 ++ totpEnc p.2)).flatten

/-- Witness serializer standing in for `serde_json::to_string`. -/
def schemaEncode (s : JsonDatabaseSchema) : String :=
  String.mk (natEnc s.version ++ appsEnc s.content.applications)

/-- Witness parser standing in for `serde_json::from_str`. -/
def schemaDecode (s : String) : Option JsonDatabaseSchema :=
  match natDec s.data with
  | some (v, rest) =>
    match natDec rest with
    | some (k, rest') =>
      match appsDecGo k rest' with
      | some (m, []) => some { version := v, content := { applications := m } }
      | _ => none
    | none => none
  | none => none

/-- Witness text-to-bytes codec standing in for UTF-8 encoding: each character
as three base-256 digits of its code point. -/
def ucs3encode (s : String) : List Nat :=
  (s.data.map (fun c => [c.toNat / 65536, c.toNat / 256 % 256, c.toNat % 256])).flatten

/-- Decoder worker for `ucs3decode`. -/
def ucs3dec : List Nat → Option (List Char)
  | [] => some []
  | a :: b :: c :: rest =>
    match ucs3dec rest with
    | some cs => some (Char.ofNat (a * 65536 + b * 256 + c) :: cs)
    | none => none
  | _ => none

/-- Witness bytes-to-text codec standing in for UTF-8 decoding. -/
def ucs3decode (l : List Nat) : Option String :=
  (ucs3dec l).map String.mk

/-! Helper lemmas about chunking, XOR, CBC chaining and PKCS padding. -/

theorem chunkGo_eq_chunkList (n : Nat) :
    ∀ f l, l.length ≤ f → chunkGo n f l = chunkList n l := by
  intro f
  induction f using Nat.strong_induction_on with
  | _ f ih =>
    intro l hl
    cases l with
    | nil => cases f <;> rfl
    | cons x xs =>
      cases f with
      | zero => simp at hl
      | succ f' =>
        have hl' : xs.length ≤ f' := by simpa using hl
        have hd : (xs.drop (n - 1)).length ≤ xs.length := by simp
        have h1 : chunkGo n f' (xs.drop (n - 1)) = chunkList n (xs.drop (n - 1)) :=
          ih f' (Nat.lt_succ_self f') _ (le_trans hd hl')
        have h2 : chunkGo n xs.length (xs.drop (n - 1)) = chunkList n (xs.drop (n - 1)) :=
          ih xs.length (Nat.lt_succ_of_le hl') _ hd
        show chunkGo n (f' + 1) (x :: xs) = chunkList n (x :: xs)
        simp only [chunkList, List.length_cons, chunkGo]
        rw [h1, h2]

theorem chunkList_ne_nil_eq (n : Nat) (hn : 0 < n) (l : List Nat) (hl : l ≠ []) :
    chunkList n l = l.take n :: chunkList n (l.drop n) := by
  cases l with
  | nil => exact absurd rfl hl
  | cons x xs =>
    have hdrop : (x :: xs).drop n = xs.drop (n - 1) := by
      cases n with
      | zero => omega
      | succ m => simp
    simp only [chunkList, List.length_cons, chunkGo]
    rw [hdrop]
    congr 1
    rw [chunkGo_eq_chunkList n xs.length _ (by simp)]
    rfl

theorem flatten_chunkList (n : Nat) (hn : 0 < n) (l : List Nat) :
    (chunkList n l).flatten = l := by
  suffices h : ∀ k (l : List Nat), l.length ≤ k → (chunkList n l).flatten = l by
    exact h l.length l le_rfl
  intro k
  induction k with
  | zero =>
    intro l hl
    have hnil : l = [] := by cases l <;> simp_all
    subst hnil; rfl
  | succ k ih =>
    intro l hl
    cases l with
    | nil => rfl
    | cons x xs =>
      rw [chunkList_ne_nil_eq n hn _ (by simp)]
      simp only [List.flatten_cons]
      have h1 : ((x :: xs).drop n).length ≤ k := by
        have : xs.length ≤ k := by simpa using hl
        simp [List.length_drop]
        omega
      rw [ih _ h1]
      exact List.take_append_drop n (x :: xs)

theorem chunkList_blocks_len :
    ∀ l : List Nat, l.length % 16 = 0 → ∀ b ∈ chunkList 16 l, b.length = 16 := by
  suffices h : ∀ k (l : List Nat), l.length ≤ k → l.length % 16 = 0 →
      ∀ b ∈ chunkList 16 l, b.length = 16 by
    exact fun l => h l.length l le_rfl
  intro k
  induction k with
  | zero =>
    intro l hl _ b hb
    have hnil : l = [] := by cases l <;> simp_all
    subst hnil; simp [chunkList, chunkGo] at hb
  | succ k ih =>
    intro l hl hmod b hb
    cases l with
    | nil => simp [chunkList, chunkGo] at hb
    | cons x xs =>
      have hlc : (x :: xs).length = xs.length + 1 := by simp
      have hge : 16 ≤ (x :: xs).length := by omega
      rw [chunkList_ne_nil_eq 16 (by omega) _ (by simp)] at hb
      rcases List.mem_cons.mp hb with h | h
      · subst h; simp [List.length_take]; omega
      · have h1 : ((x :: xs).drop 16).length ≤ k := by
          simp [List.length_drop]; omega
        have h2 : ((x :: xs).drop 16).length % 16 = 0 := by
          simp [List.length_drop]; omega
        exact ih _ h1 h2 b h

theorem chunkList_flatten_blocks :
    ∀ bs : List (List Nat), (∀ b ∈ bs, b.length = 16) → chunkList 16 bs.flatten = bs := by
  intro bs
  induction bs with
  | nil => intro _; rfl
  | cons b bs ih =>
    intro hall
    have hb : b.length = 16 := hall b (List.mem_cons_self b bs)
    have hne : (b :: bs).flatten ≠ [] := by
      simp only [List.flatten_cons]
      intro hcon
      have := congrArg List.length hcon
      simp [hb] at this
    rw [chunkList_ne_nil_eq 16 (by omega) _ hne]
    simp only [List.flatten_cons]
    rw [List.take_left' hb, List.drop_left' hb]
    rw [ih (fun c hc => hall c (List.mem_cons_of_mem b hc))]

theorem xorBytes_length (a b : List Nat) : (xorBytes a b).length = min a.length b.length := by
  simp [xorBytes]

theorem xorBytes_cancel : ∀ a b : List Nat, a.length = b.length →
    xorBytes a (xorBytes a b) = b := by
  intro a
  induction a with
  | nil => intro b hb; cases b <;> simp_all [xorBytes]
  | cons x xs ih =>
    intro b hb
    cases b with
    | nil => simp at hb
    | cons y ys =>
      simp only [xorBytes, List.zipWith_cons_cons] at *
      rw [Nat.xor_cancel_left]
      have := ih ys (by simpa using hb)
      simp only [xorBytes] at this
      rw [this]

theorem cbcEncBlocks_length (E : List Nat → List Nat → List Nat) (key : List Nat) :
    ∀ bs iv, (cbcEncBlocks E key iv bs).length = bs.length := by
  intro bs
  induction bs with
  | nil => intro iv; rfl
  | cons b bs ih => intro iv; simp [cbcEncBlocks, ih]

theorem cbcEncBlocks_mem (E : List Nat → List Nat → List Nat) (key : List Nat)
    (hE : ∀ b : List Nat, b.length = 16 → (E key b).length = 16) :
    ∀ bs iv, iv.length = 16 → (∀ b ∈ bs, b.length = 16) →
      ∀ c ∈ cbcEncBlocks E key iv bs, c.length = 16 := by
  intro bs
  induction bs with
  | nil => intro iv _ _ c hc; simp [cbcEncBlocks] at hc
  | cons b bs ih =>
    intro iv hiv hall c hc
    have hb : b.length = 16 := hall b (List.mem_cons_self b bs)
    have hx : (xorBytes iv b).length = 16 := by rw [xorBytes_length, hiv, hb]; rfl
    simp only [cbcEncBlocks] at hc
    rcases List.mem_cons.mp hc with h | h
    · subst h; exact hE _ hx
    · exact ih (E key (xorBytes iv b)) (hE _ hx)
        (fun d hd => hall d (List.mem_cons_of_mem b hd)) c h

theorem cbcDec_cbcEnc (E D : List Nat → List Nat → List Nat) (key : List Nat)
    (hE : ∀ b : List Nat, b.length = 16 → (E key b).length = 16)
    (hED : ∀ b : List Nat, b.length = 16 → D key (E key b) = b) :
    ∀ bs iv, iv.length = 16 → (∀ b ∈ bs, b.length = 16) →
      cbcDecBlocks D key iv (cbcEncBlocks E key iv bs) = bs := by
  intro bs
  induction bs with
  | nil => intro iv _ _; rfl
  | cons b bs ih =>
    intro iv hiv hall
    have hb : b.length = 16 := hall b (List.mem_cons_self b bs)
    have hx : (xorBytes iv b).length = 16 := by rw [xorBytes_length, hiv, hb]; rfl
    simp only [cbcEncBlocks, cbcDecBlocks]
    rw [hED _ hx, xorBytes_cancel iv b (hiv.trans hb.symm),
      ih (E key (xorBytes iv b)) (hE _ hx)
        (fun d hd => hall d (List.mem_cons_of_mem b hd))]

theorem flatten_blocks_length :
    ∀ bs : List (List Nat), (∀ b ∈ bs, b.length = 16) → bs.flatten.length = 16 * bs.length := by
  intro bs
  induction bs with
  | nil => intro _; rfl
  | cons b bs ih =>
    intro hall
    simp only [List.flatten_cons, List.length_append, List.length_cons]
    rw [hall b (List.mem_cons_self b bs), ih (fun c hc => hall c (List.mem_cons_of_mem b hc))]
    ring

theorem pkcsPad_length (d : List Nat) :
    (pkcsPad d).length = d.length + padLen d.length := by
  simp [pkcsPad]

theorem pkcsPad_mod (d : List Nat) : (pkcsPad d).length % 16 = 0 := by
  rw [pkcsPad_length]
  unfold padLen
  omega

theorem getLast?_replicate_val (a : Nat) : ∀ n, 1 ≤ n →
    (List.replicate n a).getLast? = some a := by
  intro n
  induction n with
  | zero => omega
  | succ q ih =>
    intro _
    cases q with
    | zero => rfl
    | succ r =>
      rw [List.replicate_succ, List.replicate_succ, List.getLast?_cons_cons,
        ← List.replicate_succ]
      exact ih (by omega)

theorem pkcsUnpad_pkcsPad (d : List Nat) : pkcsUnpad (pkcsPad d) = some d := by
  have hp1 : 1 ≤ padLen d.length := by unfold padLen; omega
  have hp16 : padLen d.length ≤ 16 := by unfold padLen; omega
  have hrep : (List.replicate (padLen d.length) (padLen d.length) : List Nat) ≠ [] := by
    simp [List.replicate_eq_nil_iff]
    omega
  have hlast : (pkcsPad d).getLast? = some (padLen d.length) := by
    unfold pkcsPad
    rw [List.getLast?_append_of_ne_nil _ hrep]
    exact getLast?_replicate_val _ _ hp1
  have hlen : (pkcsPad d).length = d.length + padLen d.length := pkcsPad_length d
  have hsub : (pkcsPad d).length - padLen d.length = d.length := by omega
  have hdrop : (pkcsPad d).drop ((pkcsPad d).length - padLen d.length)
      = List.replicate (padLen d.length) (padLen d.length) := by
    rw [hsub]
    unfold pkcsPad
    exact List.drop_left d _
  have htake : (pkcsPad d).take ((pkcsPad d).length - padLen d.length) = d := by
    rw [hsub]
    unfold pkcsPad
    exact List.take_left d _
  simp only [pkcsUnpad, hlast]
  rw [if_neg (by omega)]
  rw [if_pos ⟨hp16, by omega, by rw [hdrop]; simp [List.all_eq_true, List.mem_replicate]⟩]
  rw [htake]

theorem decrypt_encrypt_bytes (E D : List Nat → List Nat → List Nat)
    (key iv data : List Nat) (hiv : iv.length = 16)
    (hE : ∀ b : List Nat, b.length = 16 → (E key b).length = 16)
    (hED : ∀ b : List Nat, b.length = 16 → D key (E key b) = b) :
    decrypt D ((cbcEncBlocks E key iv (chunkList 16 (pkcsPad data))).flatten) key iv
      = Except.ok data := by
  have hblocks : ∀ b ∈ chunkList 16 (pkcsPad data), b.length = 16 :=
    chunkList_blocks_len _ (pkcsPad_mod data)
  have hencmem : ∀ c ∈ cbcEncBlocks E key iv (chunkList 16 (pkcsPad data)), c.length = 16 :=
    cbcEncBlocks_mem E key hE _ iv hiv hblocks
  have hflen : ((cbcEncBlocks E key iv (chunkList 16 (pkcsPad data))).flatten).length
      = (pkcsPad data).length := by
    rw [flatten_blocks_length _ hencmem, cbcEncBlocks_length]
    conv_rhs => rw [← flatten_chunkList 16 (by omega) (pkcsPad data)]
    rw [flatten_blocks_length _ hblocks]
  have hlen : ((cbcEncBlocks E key iv (chunkList 16 (pkcsPad data))).flatten).length % 16 = 0 := by
    rw [hflen]
    exact pkcsPad_mod data
  have hne : (cbcEncBlocks E key iv (chunkList 16 (pkcsPad data))).flatten ≠ [] := by
    intro hcon
    have hl0 := congrArg List.length hcon
    rw [hflen, pkcsPad_length] at hl0
    unfold padLen at hl0
    simp only [List.length_nil] at hl0
    omega
  unfold decrypt
  rw [if_pos hlen, if_neg hne]
  rw [chunkList_flatten_blocks _ hencmem]
  rw [cbcDec_cbcEnc E D key hE hED _ iv hiv hblocks]
  rw [flatten_chunkList 16 (by omega) (pkcsPad data)]
  rw [pkcsUnpad_pkcsPad]

theorem decrypt_data_encrypt_data (E D : List Nat → List Nat → List Nat)
    (utf8enc : String → List Nat) (utf8dec : List Nat → Option String)
    (s : String) (key iv : List Nat) (hiv : iv.length = 16)
    (hE : ∀ b : List Nat, b.length = 16 → (E key b).length = 16)
    (hED : ∀ b : List Nat, b.length = 16 → D key (E key b) = b)
    (hutf : utf8dec (utf8enc s) = some s) :
    decrypt_data D utf8dec (encrypt_data E utf8enc s key iv) key = Outcome.ok s := by
  unfold encrypt_data decrypt_data
  have hivsz : IV_SIZE = iv.length := by rw [hiv]; rfl
  rw [if_neg (by simp [IV_SIZE, hiv])]
  rw [hivsz, List.take_left, List.drop_left]
  rw [decrypt_encrypt_bytes E D key iv (utf8enc s) hiv hE hED]
  simp only [hutf]

/-! Helper lemmas about the association-list model of `HashMap`. -/

theorem AppMap.mapAt_cons (p : String × TOTP) (m : AppMap) (k : String) (f : TOTP → TOTP) :
    AppMap.mapAt (p :: m) k f
      = (if p.1 == k then (p.1, f p.2) else p) :: AppMap.mapAt m k f := rfl

theorem AppMap.get?_mapAt (m : AppMap) (k : String) (f : TOTP → TOTP) :
    (m.mapAt k f).get? k = (m.get? k).map f := by
  induction m with
  | nil => rfl
  | cons p m ih =>
    obtain ⟨a, t⟩ := p
    rw [AppMap.mapAt_cons]
    cases h : (a == k) with
    | true =>
      simp only [h, if_true]
      simp [AppMap.get?, h]
    | false =>
      simp only [h, Bool.false_eq_true, if_false]
      simp only [AppMap.get?, h, Bool.false_eq_true, if_false]
      exact ih

theorem AppMap.containsKey_mapAt (m : AppMap) (k k' : String) (f : TOTP → TOTP) :
    (m.mapAt k f).containsKey k' = m.containsKey k' := by
  induction m with
  | nil => rfl
  | cons p m ih =>
    obtain ⟨a, t⟩ := p
    rw [AppMap.mapAt_cons]
    cases h : (a == k) with
    | true =>
      simp only [h, if_true]
      simp only [AppMap.containsKey]
      rw [ih]
    | false =>
      simp only [h, Bool.false_eq_true, if_false]
      simp only [AppMap.containsKey]
      rw [ih]

theorem AppMap.get?_eq_none (m : AppMap) (k : String)
    (h : m.containsKey k = false) : m.get? k = none := by
  induction m with
  | nil => rfl
  | cons p m ih =>
    obtain ⟨a, t⟩ := p
    simp only [AppMap.containsKey, Bool.or_eq_false_iff] at h
    simp only [AppMap.get?, h.1, Bool.false_eq_true, if_false]
    exact ih h.2

theorem AppMap.containsKey_of_get? (m : AppMap) (k : String) (v : TOTP)
    (h : m.get? k = some v) : m.containsKey k = true := by
  cases hc : m.containsKey k with
  | true => rfl
  | false => rw [AppMap.get?_eq_none m k hc] at h; cases h

theorem AppMap.get?_insertNew (m : AppMap) (k : String) (v : TOTP)
    (h : m.containsKey k = false) : (m.insertNew k v).get? k = some v := by
  induction m with
  | nil => simp [AppMap.insertNew, AppMap.get?]
  | cons p m ih =>
    obtain ⟨a, t⟩ := p
    simp only [AppMap.containsKey, Bool.or_eq_false_iff] at h
    simp only [AppMap.insertNew, List.cons_append, AppMap.get?, h.1,
      Bool.false_eq_true, if_false]
    exact ih h.2

/-! Helper lemmas about the concrete witness block transformation. -/

theorem xor7cipher_len (key : List Nat) :
    ∀ b : List Nat, b.length = 16 → (xor7cipher key b).length = 16 := by
  intro b hb
  simp [xor7cipher, hb]

theorem xor7cipher_inv (key : List Nat) :
    ∀ b : List Nat, b.length = 16 → xor7cipher key (xor7cipher key b) = b := by
  intro b _
  unfold xor7cipher
  rw [List.map_map]
  have hcomp : ((fun x => x ^^^ 7) ∘ fun x => x ^^^ 7) = (id : Nat → Nat) := by
    funext x
    simp [Function.comp, Nat.xor_assoc]
  rw [hcomp, List.map_id]

/-- C5: `loadAll()` (here `get_applications` through `read_database_file`) on
a store whose backing file does not exist returns the empty document's entry
map — zero entries — and never fails: the missing-file branch yields
`Outcome.ok`, not a panic, for every decryption/parsing backend and every
passphrase. -/
theorem get_applications_missing_file (D : List Nat → List Nat → List Nat)
    (utf8dec : List Nat → Option String)
    (fromJson : String → Option JsonDatabaseSchema)
    (sha256 : String → List Nat) (pass : String) :
    read_database_file D utf8dec fromJson sha256 pass none
        = Outcome.ok get_empty_schema ∧
    get_applications D utf8dec fromJson sha256 pass none = Outcome.ok [] :=
  ⟨rfl, rfl⟩

/-- C9: `flush()` never modifies the in-memory registry: the registry map
after a flush equals the map before it, the bytes written are exactly those of
`save_applications` on the current map, and the document handed to the store
contains that map unchanged (the source clones the map, so the argument is
not mutated). -/
theorem flush_frame (E : List Nat → List Nat → List Nat)
    (utf8enc : String → List Nat) (toJson : JsonDatabaseSchema → String)
    (sha256 : String → List Nat) (pass : String) (iv : List Nat) (apps : AppMap) :
    (flush E utf8enc toJson sha256 pass iv apps).1 = apps ∧
    (flush E utf8enc toJson sha256 pass iv apps).2
        = save_applications E utf8enc toJson sha256 pass iv apps ∧
    (save_applications_schema apps).content.applications = apps :=
  ⟨rfl, rfl, rfl⟩

/-- C3: `rename(name, newName)` fails with a not-found error when `name` is
absent; when `name` is present it succeeds, the entry stays stored under the
old key `name` with its name field set to `newName` (so `get name` returns
the renamed entry), and when `newName` matches no existing key, `get newName`
still fails with the not-found error. -/
theorem rename_application_spec (apps : AppMap) (nm nn : String) :
    (apps.containsKey nm = false →
      rename_application nm nn apps
        = (Except.error ("Application '" ++ nm ++ "' wasn't found"), apps)) ∧
    (∀ app, apps.get? nm = some app →
      (rename_application nm nn apps).1 = Except.ok () ∧
      (rename_application nm nn apps).2.get? nm = some (app.set_name nn) ∧
      (apps.containsKey nn = false →
        get_application nn (rename_application nm nn apps).2
          = Except.error ("Application '" ++ nn ++ "' wasn't found"))) := by
  constructor
  · intro h
    simp [rename_application, h]
  · intro app happ
    have hc : apps.containsKey nm = true := AppMap.containsKey_of_get? apps nm app happ
    refine ⟨?_, ?_, ?_⟩
    · simp [rename_application, hc]
    · simp only [rename_application, hc, if_true]
      rw [AppMap.get?_mapAt, happ]
      rfl
    · intro hnn
      have hmapped : (apps.mapAt nm (fun app => app.set_name nn)).containsKey nn = false := by
        rw [AppMap.containsKey_mapAt]
        exact hnn
      simp only [rename_application, hc, if_true, get_application]
      rw [AppMap.get?_eq_none _ _ hmapped]

/-- Witness for C3 at a concrete registry: renaming "a" to "b" succeeds, the
entry is still found under "a" with its name field now "b", and lookup by "b"
fails. -/
theorem rename_application_spec_witness :
    (rename_application "a" "b" [("a", TOTP.new "a" "u" "AA" [0])]).1 = Except.ok () ∧
    (rename_application "a" "b" [("a", TOTP.new "a" "u" "AA" [0])]).2.get? "a"
        = some ((TOTP.new "a" "u" "AA" [0]).set_name "b") ∧
    get_application "b" (rename_application "a" "b" [("a", TOTP.new "a" "u" "AA" [0])]).2
        = Except.error ("Application '" ++ "b" ++ "' wasn't found") := by
  have h := (rename_application_spec [("a", TOTP.new "a" "u" "AA" [0])] "a" "b").2
      (TOTP.new "a" "u" "AA" [0]) (by decide)
  exact ⟨h.1, h.2.1, h.2.2 (by decide)⟩

/-- C6: when an entry named `nm` is already present and the new secret decodes
validly, a second `create` with the same name fails with the duplicate-name
error and the registry map — hence every field of the already-stored entry —
is exactly what it was before the call. -/
theorem create_application_duplicate_name (apps : AppMap) (nm usr sec : String)
    (bs : List Nat) (hdec : TOTP.base32_to_bytes sec = some bs)
    (hdup : apps.containsKey nm = true) :
    create_application nm usr sec apps
      = (Except.error ("Application with name '" ++ nm ++ "' already exists!"), apps) := by
  unfold create_application TOTP.new_base32
  rw [hdec]
  simp [hdup]

/-- Witness for C6: creating "github" again over a registry that already holds
"github" fails with the duplicate error and leaves the map unchanged. -/
theorem create_application_duplicate_name_witness :
    create_application "github" "u2" "AA" [("github", TOTP.new "github" "u" "AA" [0])]
      = (Except.error ("Application with name '" ++ "github" ++ "' already exists!"),
          [("github", TOTP.new "github" "u" "AA" [0])]) :=
  create_application_duplicate_name [("github", TOTP.new "github" "u" "AA" [0])]
    "github" "u2" "AA" [0] (by decide) (by decide)

/-- C10: when the secret fails base32 decoding, `create` returns the
invalid-secret-encoding error and leaves the registry map unchanged — for
every map, in particular maps that already contain the name, because the
decode (`TOTP::new_base32` behind `?`) runs before the duplicate-name check. -/
theorem create_application_invalid_secret (apps : AppMap) (nm usr sec : String)
    (hdec : TOTP.base32_to_bytes sec = none) :
    create_application nm usr sec apps
      = (Except.error ("Couldn't decode secret key"), apps) := by
  unfold create_application TOTP.new_base32
  rw [hdec]

/-- Witness for C10: an undecodable secret ("1" is outside the RFC4648
alphabet) is rejected with the decode error even though the name "github" is
already present, and the map is untouched. -/
theorem create_application_invalid_secret_witness :
    create_application "github" "u" "1" [("github", TOTP.new "github" "u" "AA" [0])]
      = (Except.error ("Couldn't decode secret key"),
          [("github", TOTP.new "github" "u" "AA" [0])]) :=
  create_application_invalid_secret [("github", TOTP.new "github" "u" "AA" [0])]
    "github" "u" "1" (by decide)

/-- C4 counterexample: the empty secret string decodes (per the base32 crate)
to `some []`, and `create` accepts it, constructing and storing an entry whose
`secret_bytes` is empty — refuting the claim that an entry whose decoding is
empty is never constructed. -/
theorem create_application_empty_secret_cex :
    TOTP.base32_to_bytes "" = some [] ∧
    create_application "app" "user" "" []
      = (Except.ok (),
          [("app", { name := "app", secret := "", username := "user", secret_bytes := [] })]) :=
  ⟨rfl, rfl⟩

/-- C4 (amended): every entry inserted by a successful `create` has
`secret_bytes` equal to a valid — but possibly empty — base32 decoding of its
`secret` field, and an entry with an undecodable secret is never constructed
(a successful call implies the decode succeeded). -/
theorem create_application_secret_invariant (apps m' : AppMap) (nm usr sec : String)
    (h : create_application nm usr sec apps = (Except.ok (), m')) :
    (TOTP.base32_to_bytes sec).isSome = true ∧
    ∀ bs, TOTP.base32_to_bytes sec = some bs →
      m'.get? nm = some (TOTP.new nm usr sec bs) := by
  unfold create_application TOTP.new_base32 at h
  cases hdec : TOTP.base32_to_bytes sec with
  | none =>
    rw [hdec] at h
    simp at h
  | some bs' =>
    rw [hdec] at h
    constructor
    · rfl
    · intro bs hbs
      injection hbs with hbs
      subst hbs
      cases hc : apps.containsKey nm with
      | true => rw [hc] at h; simp at h
      | false =>
        rw [hc] at h
        simp only [Bool.false_eq_true, if_false, Prod.mk.injEq] at h
        rw [← h.2]
        exact AppMap.get?_insertNew apps nm _ hc

/-- Witness for C4: a concrete successful create, with the stored entry's
bytes equal to the decoding of its secret. -/
theorem create_application_secret_invariant_witness :
    (TOTP.base32_to_bytes "AA").isSome = true ∧
    AppMap.get? [("a", TOTP.new "a" "u" "AA" [0])] "a" = some (TOTP.new "a" "u" "AA" [0]) := by
  have h := create_application_secret_invariant [] [("a", TOTP.new "a" "u" "AA" [0])]
      "a" "u" "AA" (by rfl)
  exact ⟨h.1, h.2 [0] (by decide)⟩

/-- C2 counterexample: on a blob shorter than 16 bytes (here the empty blob),
`decrypt_data` does not fail with a `DecryptionError` value — the slice
`&data[..IV_SIZE]` panics. Shown at a concrete cipher, text decoder and key. -/
theorem decrypt_data_short_blob_cex :
    decrypt_data (fun _ b => b) (fun _ => none) [] []
      = Outcome.panic ("slice index out of range") := rfl

/-- C2 (amended): `decrypt_data` signals every failure by panicking (via
slice indexing, `expect` and `unwrap`), never by returning an error value; it
succeeds exactly when the blob is at least 16 bytes long, the remaining
ciphertext length is a multiple of 16, the plaintext is recovered (either the
ciphertext is empty — a 16-byte blob — and the block engine finishes with
empty output and no padding check, or the PKCS padding of the CBC-decrypted
final block validates), and the recovered bytes decode as text. The inner
`decrypt` alone reports a bad ciphertext length as a `SymmetricCipherError`
value rather than a panic, and returns `Ok []` on an empty ciphertext. A
wrong key can only surface through the padding or text-decoding failures,
not as a distinct error kind. -/
theorem decrypt_data_failure_cases (D : List Nat → List Nat → List Nat)
    (utf8dec : List Nat → Option String) (data key : List Nat) :
    ((∃ s, decrypt_data D utf8dec data key = Outcome.ok s) ↔
      (16 ≤ data.length ∧ (data.length - 16) % 16 = 0 ∧
        ∃ pt, (if data.drop 16 = [] then some []
               else pkcsUnpad ((cbcDecBlocks D key (data.take 16)
                  (chunkList 16 (data.drop 16))).flatten)) = some pt ∧
              (utf8dec pt).isSome = true)) ∧
    ((∀ s, decrypt_data D utf8dec data key ≠ Outcome.ok s) →
      ∃ msg, decrypt_data D utf8dec data key = Outcome.panic msg) ∧
    (16 ≤ data.length → (data.length - 16) % 16 ≠ 0 →
      decrypt D (data.drop 16) key (data.take 16)
        = Except.error SymmetricCipherError.InvalidLength) ∧
    (data.drop 16 = [] →
      decrypt D (data.drop 16) key (data.take 16) = Except.ok []) := by
  have hdl : (data.drop 16).length = data.length - 16 := by simp
  have hempty : ∀ _ : data.drop 16 = [],
      decrypt D (data.drop 16) key (data.take 16) = Except.ok [] := by
    intro h
    simp [decrypt, h]
  by_cases h16 : data.length < 16
  · have hdd : decrypt_data D utf8dec data key
        = Outcome.panic ("slice index out of range") := by
      simp [decrypt_data, IV_SIZE, h16]
    refine ⟨?_, ?_, ?_, hempty⟩
    · constructor
      · rintro ⟨s, hs⟩
        rw [hdd] at hs
        cases hs
      · rintro ⟨h, _, _⟩
        omega
    · intro _
      exact ⟨_, hdd⟩
    · intro h
      omega
  · have h16' : 16 ≤ data.length := Nat.le_of_not_lt h16
    by_cases hmod : (data.length - 16) % 16 = 0
    · by_cases hemp : data.drop 16 = []
      · have hdec := hempty hemp
        cases hus : utf8dec ([] : List Nat) with
        | none =>
          have hdd : decrypt_data D utf8dec data key
              = Outcome.panic ("called Option.unwrap on a None value") := by
            simp [decrypt_data, IV_SIZE, h16, hdec, hus]
          refine ⟨?_, ?_, ?_, hempty⟩
          · constructor
            · rintro ⟨s, hs⟩
              rw [hdd] at hs
              cases hs
            · rintro ⟨_, _, pt, hpt, hsome⟩
              rw [if_pos hemp] at hpt
              injection hpt with hpt
              subst hpt
              rw [hus] at hsome
              cases hsome
          · intro _
            exact ⟨_, hdd⟩
          · intro _ h
            exact absurd hmod h
        | some s =>
          have hdd : decrypt_data D utf8dec data key = Outcome.ok s := by
            simp [decrypt_data, IV_SIZE, h16, hdec, hus]
          refine ⟨?_, ?_, ?_, hempty⟩
          · constructor
            · intro _
              exact ⟨h16', hmod, [], by rw [if_pos hemp], by rw [hus]; rfl⟩
            · intro _
              exact ⟨s, hdd⟩
          · intro hno
            exact absurd hdd (hno s)
          · intro _ h
            exact absurd hmod h
      · have hmodc : (data.drop 16).length % 16 = 0 := by
          rw [hdl]
          exact hmod
        have hdec : decrypt D (data.drop 16) key (data.take 16)
            = (match pkcsUnpad ((cbcDecBlocks D key (data.take 16)
                  (chunkList 16 (data.drop 16))).flatten) with
               | some p => Except.ok p
               | none => Except.error SymmetricCipherError.InvalidPadding) := by
          unfold decrypt
          rw [if_pos hmodc, if_neg hemp]
        cases hu : pkcsUnpad ((cbcDecBlocks D key (data.take 16)
            (chunkList 16 (data.drop 16))).flatten) with
        | none =>
          have hdd : decrypt_data D utf8dec data key
              = Outcome.panic ("Couldn't decrypt data") := by
            simp [decrypt_data, IV_SIZE, h16, hdec, hu]
          refine ⟨?_, ?_, ?_, hempty⟩
          · constructor
            · rintro ⟨s, hs⟩
              rw [hdd] at hs
              cases hs
            · rintro ⟨_, _, pt, hpt, _⟩
              rw [if_neg hemp] at hpt
              cases hpt
          · intro _
            exact ⟨_, hdd⟩
          · intro _ h
            exact absurd hmod h
        | some pt =>
          cases hus : utf8dec pt with
          | none =>
            have hdd : decrypt_data D utf8dec data key
                = Outcome.panic ("called Option.unwrap on a None value") := by
              simp [decrypt_data, IV_SIZE, h16, hdec, hu, hus]
            refine ⟨?_, ?_, ?_, hempty⟩
            · constructor
              · rintro ⟨s, hs⟩
                rw [hdd] at hs
                cases hs
              · rintro ⟨_, _, pt', hpt, hsome⟩
                rw [if_neg hemp] at hpt
                injection hpt with hpt
                subst hpt
                rw [hus] at hsome
                cases hsome
            · intro _
              exact ⟨_, hdd⟩
            · intro _ h
              exact absurd hmod h
          | some s =>
            have hdd : decrypt_data D utf8dec data key = Outcome.ok s := by
              simp [decrypt_data, IV_SIZE, h16, hdec, hu, hus]
            refine ⟨?_, ?_, ?_, hempty⟩
            · constructor
              · intro _
                exact ⟨h16', hmod, pt, by rw [if_neg hemp], by rw [hus]; rfl⟩
              · intro _
                exact ⟨s, hdd⟩
            · intro hno
              exact absurd hdd (hno s)
            · intro _ h
              exact absurd hmod h
    · have hmodc : ¬ (data.drop 16).length % 16 = 0 := by
        rw [hdl]
        exact hmod
      have hdec : decrypt D (data.drop 16) key (data.take 16)
          = Except.error SymmetricCipherError.InvalidLength := by
        unfold decrypt
        rw [if_neg hmodc]
      have hdd : decrypt_data D utf8dec data key
          = Outcome.panic ("Couldn't decrypt data") := by
        simp [decrypt_data, IV_SIZE, h16, hdec]
      refine ⟨?_, ?_, fun _ _ => hdec, hempty⟩
      · constructor
        · rintro ⟨s, hs⟩
          rw [hdd] at hs
          cases hs
        · rintro ⟨_, h, _⟩
          exact absurd h hmod
      · intro _
        exact ⟨_, hdd⟩

/-- Witness for C2 at a 17-byte blob: the one-byte ciphertext has invalid
length, and the inner `decrypt` reports it as a `SymmetricCipherError` value. -/
theorem decrypt_data_failure_cases_witness :
    decrypt (fun _ b => b) ((List.replicate 17 0).drop 16) [] ((List.replicate 17 0).take 16)
      = Except.error SymmetricCipherError.InvalidLength :=
  (decrypt_data_failure_cases (fun _ b => b) (fun _ => none) (List.replicate 17 0) []).2.2.1
    (by decide) (by decide)

/-- C7: the blob produced by `encrypt_data` for plaintext bytes `p` has length
exactly `16 + c`, where `c` is the PKCS ciphertext length
`(p.length / 16 + 1) * 16` — `p.length` rounded up to the next 16-byte
multiple, plus one extra full block when `p.length` is itself block-aligned —
and the first 16 bytes of the blob are the IV. Assumes only that the block
cipher maps 16-byte blocks to 16-byte blocks, as AES does. -/
theorem encrypt_data_blob_length (E : List Nat → List Nat → List Nat)
    (utf8enc : String → List Nat) (data : String) (key iv : List Nat)
    (hiv : iv.length = 16)
    (hE : ∀ b : List Nat, b.length = 16 → (E key b).length = 16) :
    (encrypt_data E utf8enc data key iv).length
        = 16 + ((utf8enc data).length / 16 + 1) * 16 ∧
    ((utf8enc data).length / 16 + 1) * 16
        = (utf8enc data).length + (16 - (utf8enc data).length % 16) ∧
    (encrypt_data E utf8enc data key iv).take 16 = iv := by
  have hblocks := chunkList_blocks_len _ (pkcsPad_mod (utf8enc data))
  have hencmem := cbcEncBlocks_mem E key hE _ iv hiv hblocks
  have hflat : ((cbcEncBlocks E key iv (chunkList 16 (pkcsPad (utf8enc data)))).flatten).length
      = 16 * (chunkList 16 (pkcsPad (utf8enc data))).length := by
    rw [flatten_blocks_length _ hencmem, cbcEncBlocks_length]
  have hpadflat : 16 * (chunkList 16 (pkcsPad (utf8enc data))).length
      = (pkcsPad (utf8enc data)).length := by
    conv_rhs => rw [← flatten_chunkList 16 (by omega) (pkcsPad (utf8enc data))]
    rw [flatten_blocks_length _ hblocks]
  refine ⟨?_, ?_, ?_⟩
  · unfold encrypt_data
    rw [List.length_append, hiv, hflat, hpadflat, pkcsPad_length]
    unfold padLen
    omega
  · omega
  · unfold encrypt_data
    exact List.take_left' hiv

/-- Witness for C7 at a concrete cipher, text encoder, plaintext and IV. -/
theorem encrypt_data_blob_length_witness :
    (encrypt_data xor7cipher ucs3encode "hi" [] (List.range 16)).length
        = 16 + ((ucs3encode "hi").length / 16 + 1) * 16 ∧
    ((ucs3encode "hi").length / 16 + 1) * 16
        = (ucs3encode "hi").length + (16 - (ucs3encode "hi").length % 16) ∧
    (encrypt_data xor7cipher ucs3encode "hi" [] (List.range 16)).take 16 = List.range 16 :=
  encrypt_data_blob_length xor7cipher ucs3encode "hi" [] (List.range 16)
    (by decide) (xor7cipher_len [])

/-- C1: for every entry map `M` and passphrase `P`, deserializing the
decryption of the encryption of the serialized form of `M` under the key
derived from `P` yields exactly `M` — stated through the source pipeline:
`get_applications` applied to the bytes written by `save_applications`
returns `M`, every entry field included. Assumes the external primitives
behave as the spec requires: the IV is 16 bytes, the keyed block cipher is a
16-byte-block permutation with inverse `D`, and the serde/UTF-8 codecs
round-trip the document. -/
theorem roundtrip_save_load (E D : List Nat → List Nat → List Nat)
    (utf8enc : String → List Nat) (utf8dec : List Nat → Option String)
    (toJson : JsonDatabaseSchema → String) (fromJson : String → Option JsonDatabaseSchema)
    (sha256 : String → List Nat) (M : AppMap) (P : String) (iv : List Nat)
    (hiv : iv.length = 16)
    (hE : ∀ b : List Nat, b.length = 16 → (E (form_secret_key sha256 P) b).length = 16)
    (hED : ∀ b : List Nat, b.length = 16 →
      D (form_secret_key sha256 P) (E (form_secret_key sha256 P) b) = b)
    (hjson : fromJson (toJson (save_applications_schema M)) = some (save_applications_schema M))
    (hutf : utf8dec (utf8enc (toJson (save_applications_schema M)))
      = some (toJson (save_applications_schema M))) :
    get_applications D utf8dec fromJson sha256 P
        (some (save_applications E utf8enc toJson sha256 P iv M))
      = Outcome.ok M := by
  unfold get_applications read_database_file save_applications save_database_file
  simp only [decrypt_data_encrypt_data E D utf8enc utf8dec _ _ iv hiv hE hED hutf, hjson]
  rfl

/-- Witness for C1 at a concrete map, passphrase, IV, block transformation and
codecs. -/
theorem roundtrip_save_load_witness :
    get_applications xor7cipher ucs3decode schemaDecode hash32 "p"
        (some (save_applications xor7cipher ucs3encode schemaEncode hash32 "p"
          (List.range 16) [("a", TOTP.new "a" "u" "AA" [0])]))
      = Outcome.ok [("a", TOTP.new "a" "u" "AA" [0])] :=
  roundtrip_save_load xor7cipher xor7cipher ucs3encode ucs3decode schemaEncode schemaDecode
    hash32 [("a", TOTP.new "a" "u" "AA" [0])] "p" (List.range 16)
    (by decide) (xor7cipher_len _) (xor7cipher_inv _) (by decide) (by decide)

/-- C8: on every save the document written is the given map wrapped in a
document whose `version` field is the current schema version (1): the bytes
written are exactly the encryption of the serialized version-1 document, and
reading them back yields that document — exactly the given map, independent
of any previously stored content (a full overwrite, no merge). Assumes the
same external-primitive hypotheses as the round-trip. -/
theorem save_applications_version_and_content (E D : List Nat → List Nat → List Nat)
    (utf8enc : String → List Nat) (utf8dec : List Nat → Option String)
    (toJson : JsonDatabaseSchema → String) (fromJson : String → Option JsonDatabaseSchema)
    (sha256 : String → List Nat) (apps : AppMap) (P : String) (iv : List Nat)
    (hiv : iv.length = 16)
    (hE : ∀ b : List Nat, b.length = 16 → (E (form_secret_key sha256 P) b).length = 16)
    (hED : ∀ b : List Nat, b.length = 16 →
      D (form_secret_key sha256 P) (E (form_secret_key sha256 P) b) = b)
    (hjson : fromJson (toJson (save_applications_schema apps))
      = some (save_applications_schema apps))
    (hutf : utf8dec (utf8enc (toJson (save_applications_schema apps)))
      = some (toJson (save_applications_schema apps))) :
    (save_applications_schema apps).version = DATABASE_VERSION ∧
    (save_applications_schema apps).content.applications = apps ∧
    save_applications E utf8enc toJson sha256 P iv apps
        = encrypt_data E utf8enc (toJson (save_applications_schema apps))
            (form_secret_key sha256 P) iv ∧
    read_database_file D utf8dec fromJson sha256 P
        (some (save_applications E utf8enc toJson sha256 P iv apps))
      = Outcome.ok (save_applications_schema apps) := by
  refine ⟨rfl, rfl, rfl, ?_⟩
  unfold read_database_file save_applications save_database_file
  simp only [decrypt_data_encrypt_data E D utf8enc utf8dec _ _ iv hiv hE hED hutf, hjson]

/-- Witness for C8 at a concrete map and backend. -/
theorem save_applications_version_and_content_witness :
    (save_applications_schema []).version = DATABASE_VERSION ∧
    (save_applications_schema []).content.applications = ([] : AppMap) ∧
    save_applications xor7cipher ucs3encode schemaEncode hash32 "q" (List.range 16) []
        = encrypt_data xor7cipher ucs3encode (schemaEncode (save_applications_schema []))
            (form_secret_key hash32 "q") (List.range 16) ∧
    read_database_file xor7cipher ucs3decode schemaDecode hash32 "q"
        (some (save_applications xor7cipher ucs3encode schemaEncode hash32 "q"
          (List.range 16) []))
      = Outcome.ok (save_applications_schema []) :=
  save_applications_version_and_content xor7cipher xor7cipher ucs3encode ucs3decode
    schemaEncode schemaDecode hash32 [] "q" (List.range 16)
    (by decide) (xor7cipher_len _) (xor7cipher_inv _) (by decide) (by decide)
